import Mathlib

/-!
Verification of the streaming/batching/reassembly core of the Lumilio ML
inference services (`ml/lumen-clip`): the chunk reassembler
(`CLIPService._assemble`, `BioClipService._assemble`), the unified batching
dispatcher (`UnifiedMLService.Infer` / `_process_batch`) and the CLIP
streaming loop (`CLIPService.Infer`), shallowly embedded as executable Lean
functions.

Modelling conventions:
* protobuf `bytes` payloads are `List Nat` (byte values); JSON result bytes
  are kept as the `String` they decode to;
* the model backends (encode text/image, classify) are opaque capabilities,
  passed in as functions returning `Except String _` — a `.error` models a
  raised Python exception, caught where the source catches it;
* embedding vectors are `List Int` stand-ins (no claim inspects the float
  values);
* Python generator handlers are modelled by `GenResult`: the list of
  responses yielded before the generator either finishes (`exn = none`) or
  raises (`exn = some msg`);
* the wall clock (`_now_ms`) is an oracle `now : Nat → Nat` consumed with a
  tick counter, one tick per call site, matching the call order in the
  source.
-/

namespace Lumilio

/-- `pb.InferRequest`: one wire message of the streaming Infer RPC. -/
structure InferRequest where
  correlation_id : String
  task : String
  payload : List Nat
  payload_mime : String
  meta : List (String × String)
  seq : Nat
  total : Nat
  offset : Nat
  deriving DecidableEq, Repr

/-- `pb.Error.code` values used by the services. -/
inductive ErrorCode where
  | INVALID_ARGUMENT
  | FAILED_PRECONDITION
  | INTERNAL
  deriving DecidableEq, Repr

/-- `pb.InferResponse`: unset proto fields are their empty defaults. -/
structure InferResponse where
  correlation_id : String
  is_final : Bool
  result : String
  result_mime : String
  meta : List (String × String)
  error : Option (ErrorCode × String)
  deriving DecidableEq, Repr

/-- An error envelope, as built inline by the services:
`pb.InferResponse(correlation_id=cid, is_final=True, error=pb.Error(code, message))`. -/
def errorResponse (cid : String) (code : ErrorCode) (msg : String) : InferResponse :=
  { correlation_id := cid, is_final := true, result := "", result_mime := "",
    meta := [], error := some (code, msg) }

/-! ### Reassembly buffers

The per-stream `buffers : Dict[str, bytearray]` is a partial map from
correlation id to accumulated bytes, with the dict operations the source
uses: `buffers.setdefault(cid, bytearray())` + `extend` (= update) and
`del buffers[cid]` (= erase). -/

abbrev Buffers := String → Option (List Nat)

def emptyBuffers : Buffers := fun _ => none

def bufLookup (cid : String) (bufs : Buffers) : Option (List Nat) := bufs cid

def bufUpdate (cid : String) (v : List Nat) (bufs : Buffers) : Buffers :=
  fun c => if c = cid then some v else bufs c

def bufErase (cid : String) (bufs : Buffers) : Buffers :=
  fun c => if c = cid then none else bufs c

theorem bufLookup_update_self (cid : String) (v : List Nat) (bufs : Buffers) :
    bufLookup cid (bufUpdate cid v bufs) = some v := by
  simp [bufLookup, bufUpdate]

theorem bufLookup_erase_self (cid : String) (bufs : Buffers) :
    bufLookup cid (bufErase cid bufs) = none := by
  simp [bufLookup, bufErase]

/-- `CLIPService._assemble` (clip_service.py:184-206): returns
`((payload, ready), buffers')`. -/
def assembleCLIP (cid : String) (req : InferRequest) (bufs : Buffers) :
    (List Nat × Bool) × Buffers :=
  -- Default path for non-chunked requests
  if req.total ≤ 1 then ((req.payload, true), bufs)
  else
    -- buf = buffers.setdefault(cid, bytearray()); buf.extend(req.payload)
    let buf := (bufLookup cid bufs).getD [] ++ req.payload
    -- if req.total and (req.seq + 1 == req.total): return bytes(buf), True
    if req.total ≠ 0 ∧ req.seq + 1 = req.total then
      ((buf, true), bufErase cid (bufUpdate cid buf bufs))
    else
      (([], false), bufUpdate cid buf bufs)

/-- `BioClipService._assemble` (bioclip_service.py:166-182): the passthrough
guard is `not req.total and not req.seq and not req.offset` (all zero), not
`total <= 1`. -/
def assembleBio (cid : String) (req : InferRequest) (bufs : Buffers) :
    (List Nat × Bool) × Buffers :=
  if req.total = 0 ∧ req.seq = 0 ∧ req.offset = 0 then ((req.payload, true), bufs)
  else
    let buf := (bufLookup cid bufs).getD [] ++ req.payload
    if req.total ≠ 0 ∧ req.seq + 1 = req.total then
      ((buf, true), bufErase cid (bufUpdate cid buf bufs))
    else
      (([], false), bufUpdate cid buf bufs)

/-! ### Unified service: grouping and dispatch (`service.py`)

`_process_batch` groups the batch with `tasks = defaultdict(list)` populated
in order — keys appear in first-occurrence order, each group holds its
requests in input order — then iterates groups, looking up a handler by
name.  A Python handler is a generator; consuming it may yield some
responses and then raise, which the `except` block answers by yielding an
INTERNAL error for every request of the group. -/

/-- Insert a task key if absent (dict key creation order). -/
def insertKey (ks : List String) (t : String) : List String :=
  if t ∈ ks then ks else ks ++ [t]

def taskKeysAux (ks : List String) : List InferRequest → List String
  | [] => ks
  | r :: rs => taskKeysAux (insertKey ks r.task) rs

/-- The distinct task names of a batch, in first-occurrence order
(iteration order of the `defaultdict`). -/
def taskKeys (batch : List InferRequest) : List String := taskKeysAux [] batch

/-- `tasks = defaultdict(list); for req in batch: tasks[req.task].append(req)`:
each key maps to the requests bearing it, in input order. -/
def groupByTask (batch : List InferRequest) : List (String × List InferRequest) :=
  (taskKeys batch).map fun t => (t, batch.filter fun r => r.task = t)

/-- Result of consuming a Python generator handler: the responses it yielded
before finishing (`exn = none`) or raising (`exn = some message`). -/
structure GenResult where
  yielded : List InferResponse
  exn : Option String
  deriving DecidableEq, Repr

/-- The handler registry: `getattr(self, f"_handle_{task_name}", None)`. -/
abbrev Handlers := String → Option (List InferRequest → GenResult)

/-- One iteration of the group loop of `_process_batch` (service.py:124-144):
known handler → yield what it yields, and on an exception additionally yield
an INTERNAL error for every request of the group; unknown task → an
INVALID_ARGUMENT error per request. -/
def processGroup (handlers : Handlers) (t : String) (rs : List InferRequest) :
    List InferResponse :=
  match handlers t with
  | some h =>
      let g := h rs
      g.yielded ++
        (match g.exn with
         | some e => rs.map fun r => errorResponse r.correlation_id .INTERNAL e
         | none => [])
  | none =>
      rs.map fun r =>
        errorResponse r.correlation_id .INVALID_ARGUMENT ("Unknown task: " ++ t)

/-- `UnifiedMLService._process_batch` (service.py:113-147). -/
def processBatch (handlers : Handlers) (batch : List InferRequest) :
    List InferResponse :=
  (groupByTask batch).flatMap fun g => processGroup handlers g.1 g.2

/-! ### Unified service: response builders and a concrete handler -/

def renderIntList (vec : List Int) : String :=
  "[" ++ String.intercalate "," (vec.map toString) ++ "]"

/-- The `embedding_v1` JSON object of `_build_embed_response`
(`json.dumps(obj, separators=(",", ":"))`); vector entries abstracted to
integers. -/
def jsonEmbed (vec : List Int) (modelId : String) : String :=
  "\x7b\"vector\":" ++ renderIntList vec ++ ",\"dim\":" ++ toString vec.length ++
    ",\"model_id\":\"" ++ modelId ++ "\"\x7d"

/-- `UnifiedMLService._build_embed_response` (service.py:260-268).  The
model-id formatting from `model_info` is abstracted to the resulting string.
Its `meta` is exactly `{"dim": str(len(vec))}`. -/
def buildEmbedResponse (cid : String) (vec : List Int) (modelId : String) :
    InferResponse :=
  { correlation_id := cid, is_final := true,
    result := jsonEmbed vec modelId,
    result_mime := "application/json;schema=embedding_v1",
    meta := [("dim", toString vec.length)],
    error := none }

def jsonLabels (scores : List (String × Int)) (modelId : String) : String :=
  "\x7b\"labels\":[" ++
    String.intercalate ","
      (scores.map fun s =>
        "\x7b\"label\":\"" ++ s.1 ++ "\",\"score\":" ++ toString s.2 ++ "\x7d") ++
    "],\"model_id\":\"" ++ modelId ++ "\"\x7d"

/-- `UnifiedMLService._build_label_response` (service.py:246-258): `meta` is
`{"labels_count": str(len(scores))}` updated with the optional extra meta. -/
def buildLabelResponse (cid : String) (scores : List (String × Int))
    (modelId : String) (extra : List (String × String)) : InferResponse :=
  { correlation_id := cid, is_final := true,
    result := jsonLabels scores modelId,
    result_mime := "application/json;schema=labels_v1",
    meta := [("labels_count", toString scores.length)] ++ extra,
    error := none }

/-- `UnifiedMLService._handle_clip_embed` (service.py:202-205) as consumed by
the group loop: per request, decode+encode the payload (the opaque
`encode_text` capability, whose failure is a raised exception) and yield an
embed response; a failure stops the generator at that request. -/
def handleClipEmbed (enc : List Nat → Except String (List Int))
    (modelId : String) : List InferRequest → GenResult
  | [] => { yielded := [], exn := none }
  | r :: rs =>
      match enc r.payload with
      | .error e => { yielded := [], exn := some e }
      | .ok vec =>
          let g := handleClipEmbed enc modelId rs
          { yielded := buildEmbedResponse r.correlation_id vec modelId :: g.yielded,
            exn := g.exn }

/-! ### Unified service: the batching stream loop (`Infer`, service.py:92-111) -/

def BATCH_SIZE : Nat := 8

/-- The accumulate/flush loop: append each request; once the accumulator
reaches `bs` elements, emit it as a batch and clear; at end of stream emit
the nonempty remainder. Returns the dispatched batches in order. -/
def batchifyAux (bs : Nat) (acc : List InferRequest) :
    List InferRequest → List (List InferRequest)
  | [] => if acc.isEmpty then [] else [acc]
  | r :: rest =>
      let acc' := acc ++ [r]
      if bs ≤ acc'.length then acc' :: batchifyAux bs [] rest
      else batchifyAux bs acc' rest

def batchify (bs : Nat) (stream : List InferRequest) : List (List InferRequest) :=
  batchifyAux bs [] stream

/-- `UnifiedMLService.Infer` (service.py:92-111): abort with
FAILED_PRECONDITION unless both model managers are initialized, otherwise
process the stream in batches of `BATCH_SIZE`, flushing the final partial
batch. -/
def unifiedInfer (clipInit bioInit : Bool) (handlers : Handlers)
    (stream : List InferRequest) :
    Except (ErrorCode × String) (List InferResponse) :=
  if ¬clipInit ∨ ¬bioInit then
    .error (.FAILED_PRECONDITION, "Models are not initialized.")
  else
    .ok ((batchify BATCH_SIZE stream).flatMap fun b => processBatch handlers b)

/-! ### CLIP service streaming loop (`clip_service.py`)

`CLIPService.Infer` routes each reassembled request to `_handle_embed` /
`_handle_classify` / `_handle_classify_scene`.  Those handlers call the
opaque model capability and build `(result_bytes, result_mime, extra_meta)`;
they are modelled as capabilities of that exact shape, an `Except.error`
being a raised exception (caught by the loop's `except` into an INTERNAL
error response). -/

abbrev HandlerOut := String × String × List (String × String)

structure ClipHandlers where
  embed : List Nat → List (String × String) → Except String HandlerOut
  classify : List Nat → List (String × String) → Except String HandlerOut
  classifyScene : List Nat → List (String × String) → Except String HandlerOut

/-- Python dict assignment `meta[k] = v`: update in place or append. -/
def metaInsert (k v : String) : List (String × String) → List (String × String)
  | [] => [(k, v)]
  | (k', v') :: rest =>
      if k' = k then (k', v) :: rest else (k', v') :: metaInsert k v rest

def metaLookup (k : String) : List (String × String) → Option String
  | [] => none
  | (k', v') :: rest => if k' = k then some v' else metaLookup k rest

/-- The task routing of `CLIPService.Infer` (clip_service.py:82-94):
`none` models the unknown-task branch. -/
def routeTask (H : ClipHandlers) (task : String) (payload : List Nat)
    (meta : List (String × String)) : Option (Except String HandlerOut) :=
  if task = "embed" then some (H.embed payload meta)
  else if task = "classify" then some (H.classify payload meta)
  else if task = "classify_scene" then some (H.classifyScene payload meta)
  else none

/-- The request loop of `CLIPService.Infer` (clip_service.py:71-114), after
the initialization check.  State: the reassembly `buffers` and the clock
tick (each `_now_ms()` call reads `now tick` and advances the tick; the
correlation-id fallback only consumes a tick when `correlation_id` is
empty, as `req.correlation_id or f"cid-{_now_ms()}"` short-circuits). -/
def clipLoop (H : ClipHandlers) (now : Nat → Nat) (bufs : Buffers) (tick : Nat) :
    List InferRequest → List InferResponse
  | [] => []
  | req :: rest =>
      let p : String × Nat :=
        if req.correlation_id = "" then ("cid-" ++ toString (now tick), tick + 1)
        else (req.correlation_id, tick)
      let cid := p.1
      let t0 := now p.2
      let tick1 := p.2 + 1
      let ar := assembleCLIP cid req bufs
      let payload := ar.1.1
      let ready := ar.1.2
      let bufs' := ar.2
      if ready = false then clipLoop H now bufs' tick1 rest
      else
        match routeTask H req.task payload req.meta with
        | none =>
            errorResponse cid .INVALID_ARGUMENT ("Unknown task: " ++ req.task) ::
              clipLoop H now bufs' tick1 rest
        | some (.error e) =>
            errorResponse cid .INTERNAL e :: clipLoop H now bufs' tick1 rest
        | some (.ok out) =>
            let lat := now tick1 - t0
            { correlation_id := cid, is_final := true,
              result := out.1, result_mime := out.2.1,
              meta := metaInsert "lat_ms" (toString lat) out.2.2,
              error := none } :: clipLoop H now bufs' (tick1 + 1) rest

/-- `CLIPService.Infer` (clip_service.py:61-114): abort the stream with
FAILED_PRECONDITION when the model is not initialized (`context.abort`
raises, so the loop never runs and no response is emitted), otherwise run
the loop with fresh buffers. -/
def clipInfer (isInitialized : Bool) (H : ClipHandlers) (now : Nat → Nat)
    (stream : List InferRequest) :
    Except (ErrorCode × String) (List InferResponse) :=
  if ¬isInitialized then .error (.FAILED_PRECONDITION, "Model not initialized")
  else .ok (clipLoop H now emptyBuffers 0 stream)

/-! ### Helper lemmas: task keys and the grouping partition -/

theorem mem_insertKey (ks : List String) (u t : String) :
    t ∈ insertKey ks u ↔ t ∈ ks ∨ t = u := by
  by_cases h : u ∈ ks
  · simp only [insertKey, if_pos h]
    constructor
    · exact fun hm => Or.inl hm
    · rintro (hm | rfl)
      · exact hm
      · exact h
  · simp [insertKey, if_neg h]

theorem insertKey_nodup (ks : List String) (u : String) (h : ks.Nodup) :
    (insertKey ks u).Nodup := by
  by_cases hu : u ∈ ks
  · simpa [insertKey, if_pos hu] using h
  · simp only [insertKey, if_neg hu]
    rw [List.nodup_append]
    refine ⟨h, List.nodup_singleton u, ?_⟩
    intro x hx hxu
    rw [List.mem_singleton] at hxu
    exact hu (hxu ▸ hx)

theorem taskKeysAux_nodup (l : List InferRequest) :
    ∀ ks : List String, ks.Nodup → (taskKeysAux ks l).Nodup := by
  induction l with
  | nil => intro ks h; simpa [taskKeysAux] using h
  | cons r rs ih =>
      intro ks h
      exact ih (insertKey ks r.task) (insertKey_nodup ks r.task h)

theorem mem_taskKeysAux (l : List InferRequest) :
    ∀ (ks : List String) (t : String),
      t ∈ taskKeysAux ks l ↔ t ∈ ks ∨ ∃ r ∈ l, r.task = t := by
  induction l with
  | nil => intro ks t; simp [taskKeysAux]
  | cons r rs ih =>
      intro ks t
      rw [taskKeysAux, ih, mem_insertKey]
      constructor
      · rintro ((hk | rfl) | ⟨r', hr', rfl⟩)
        · exact Or.inl hk
        · exact Or.inr ⟨r, List.mem_cons_self r rs, rfl⟩
        · exact Or.inr ⟨r', List.mem_cons_of_mem r hr', rfl⟩
      · rintro (hk | ⟨r', hr', rfl⟩)
        · exact Or.inl (Or.inl hk)
        · rcases List.mem_cons.mp hr' with rfl | hr'
          · exact Or.inl (Or.inr rfl)
          · exact Or.inr ⟨r', hr', rfl⟩

theorem taskKeys_nodup (batch : List InferRequest) : (taskKeys batch).Nodup :=
  taskKeysAux_nodup batch [] List.nodup_nil

theorem mem_taskKeys (batch : List InferRequest) (t : String) :
    t ∈ taskKeys batch ↔ ∃ r ∈ batch, r.task = t := by
  rw [taskKeys, mem_taskKeysAux]; simp

/-- Filtering `r :: l` by a task name other than `r.task` ignores `r`. -/
theorem filter_task_cons_ne (l : List InferRequest) (r : InferRequest)
    (t : String) (h : r.task ≠ t) :
    (r :: l).filter (fun x => x.task = t) = l.filter (fun x => x.task = t) := by
  simp [List.filter_cons, h]

theorem filter_task_cons_eq (l : List InferRequest) (r : InferRequest)
    (t : String) (h : r.task = t) :
    (r :: l).filter (fun x => x.task = t) = r :: l.filter (fun x => x.task = t) := by
  simp [List.filter_cons, h]

/-- Prepending one request to the filtered groups adds exactly that request
once, provided the key list has no duplicates and contains its task. -/
theorem join_filter_cons (l : List InferRequest) (r : InferRequest) :
    ∀ ks : List String, ks.Nodup → r.task ∈ ks →
      ((ks.map fun t => (r :: l).filter (fun x => x.task = t)).flatten).Perm
        (r :: (ks.map fun t => l.filter (fun x => x.task = t)).flatten) := by
  intro ks
  induction ks with
  | nil => intro _ h; simp at h
  | cons t ks' ih =>
      intro hnd hmem
      rcases List.mem_cons.mp hmem with rfl | hmem'
      · have ht : r.task ∉ ks' := (List.nodup_cons.mp hnd).1
        have hrest : ks'.map (fun t => (r :: l).filter (fun x => x.task = t)) =
            ks'.map (fun t => l.filter (fun x => x.task = t)) := by
          apply List.map_congr_left
          intro u hu
          exact filter_task_cons_ne l r u (fun he => ht (he ▸ hu))
        simp only [List.map_cons, List.flatten_cons, hrest,
          filter_task_cons_eq l r r.task rfl, List.cons_append]
        exact List.Perm.refl _
      · have hnd' := (List.nodup_cons.mp hnd).2
        by_cases he : r.task = t
        · exact absurd (he ▸ hmem') (List.nodup_cons.mp hnd).1
        · have hhead := filter_task_cons_ne l r t he
          simp only [List.map_cons, List.flatten_cons, hhead]
          refine List.Perm.trans (List.Perm.append_left _ (ih hnd' hmem')) ?_
          exact List.perm_middle

/-- A duplicate-free key list covering all tasks of `l` partitions `l`:
the concatenation of the per-task filters is a permutation of `l`. -/
theorem join_filter_perm (l : List InferRequest) :
    ∀ ks : List String, ks.Nodup → (∀ r ∈ l, r.task ∈ ks) →
      ((ks.map fun t => l.filter (fun x => x.task = t)).flatten).Perm l := by
  induction l with
  | nil =>
      intro ks _ _
      rw [List.perm_nil]
      simp [List.flatten_eq_nil_iff]
  | cons r rs ih =>
      intro ks hnd hcov
      have h1 := join_filter_cons rs r ks hnd (hcov r (List.mem_cons_self r rs))
      have h2 := ih ks hnd (fun x hx => hcov x (List.mem_cons_of_mem r hx))
      exact h1.trans (List.Perm.cons r h2)

/-- The groups of `groupByTask` partition the batch (as a multiset). -/
theorem groupByTask_join_perm (batch : List InferRequest) :
    (((groupByTask batch).map fun g => g.2).flatten).Perm batch := by
  have hmap : (groupByTask batch).map (fun g => g.2) =
      (taskKeys batch).map fun t => batch.filter (fun x => x.task = t) := by
    simp [groupByTask, List.map_map, Function.comp]
  rw [hmap]
  exact join_filter_perm batch (taskKeys batch) (taskKeys_nodup batch)
    (fun r hr => (mem_taskKeys batch r.task).mpr ⟨r, hr, rfl⟩)

/-! ### Helper lemmas: dispatch -/

/-- A handler registry behaves per-request when every registered handler, on
any group, either finishes without raising having yielded exactly one
response per request carrying that request's correlation id, or raises
before yielding any response.  All concrete handlers of the unified service
are of this shape as long as the backend does not fail mid-group. -/
def PerRequestHandlers (handlers : Handlers) : Prop :=
  ∀ t h, handlers t = some h → ∀ rs : List InferRequest,
    ((h rs).exn = none →
      (h rs).yielded.map (fun x => x.correlation_id) =
        rs.map (fun r => r.correlation_id)) ∧
    ((h rs).exn ≠ none → (h rs).yielded = [])

theorem processGroup_cids (handlers : Handlers) (t : String)
    (rs : List InferRequest)
    (hw : ∀ h, handlers t = some h →
      (((h rs).exn = none →
        (h rs).yielded.map (fun x => x.correlation_id) =
          rs.map (fun r => r.correlation_id)) ∧
       ((h rs).exn ≠ none → (h rs).yielded = []))) :
    (processGroup handlers t rs).map (fun x => x.correlation_id) =
      rs.map (fun r => r.correlation_id) := by
  cases hh : handlers t with
  | none => simp [processGroup, hh, errorResponse, List.map_map, Function.comp]
  | some h =>
      obtain ⟨hok, hfail⟩ := hw h hh
      cases hexn : (h rs).exn with
      | none =>
          simp [processGroup, hh, hexn, hok hexn]
      | some e =>
          have hy : (h rs).yielded = [] := hfail (by simp [hexn])
          simp [processGroup, hh, hexn, hy, errorResponse, List.map_map,
            Function.comp]

/-- Under per-request handlers, one `_process_batch` call emits exactly the
batch's correlation ids, as a multiset. -/
theorem processBatch_cids_perm (handlers : Handlers) (batch : List InferRequest)
    (hw : PerRequestHandlers handlers) :
    ((processBatch handlers batch).map (fun x => x.correlation_id)).Perm
      (batch.map (fun r => r.correlation_id)) := by
  have hstep : (processBatch handlers batch).map (fun x => x.correlation_id) =
      ((groupByTask batch).map fun g =>
        (processGroup handlers g.1 g.2).map (fun x => x.correlation_id)).flatten := by
    simp only [processBatch, List.map_flatMap]
    rfl
  have hcongr : ((groupByTask batch).map fun g =>
      (processGroup handlers g.1 g.2).map (fun x => x.correlation_id)) =
      ((groupByTask batch).map fun g =>
        g.2.map (fun r => r.correlation_id)) := by
    apply List.map_congr_left
    intro g _
    exact processGroup_cids handlers g.1 g.2 (fun h hh => hw g.1 h hh g.2)
  rw [hstep, hcongr]
  have hmaps : ((groupByTask batch).map fun g =>
      g.2.map (fun r => r.correlation_id)).flatten =
      (((groupByTask batch).map fun g => g.2).flatten).map
        (fun r => r.correlation_id) := by
    rw [List.map_flatten, List.map_map]
    rfl
  rw [hmaps]
  exact (groupByTask_join_perm batch).map (fun r => r.correlation_id)

/-- A batch whose requests all bear one task forms a single group. -/
theorem groupByTask_single (rs : List InferRequest) (u : String)
    (hne : rs ≠ []) (hall : ∀ r ∈ rs, r.task = u) :
    groupByTask rs = [(u, rs)] := by
  have hkeys : taskKeys rs = [u] := by
    have haux : ∀ (l : List InferRequest) (ks : List String), l ≠ [] →
        (∀ r ∈ l, r.task = u) → taskKeysAux ks l = insertKey ks u := by
      intro l
      induction l with
      | nil => intro ks h; exact absurd rfl h
      | cons r l' ih =>
          intro ks _ hall'
          have hr : r.task = u := hall' r (List.mem_cons_self r l')
          rw [taskKeysAux, hr]
          by_cases hnil : l' = []
          · subst hnil; rfl
          · rw [ih (insertKey ks u) hnil (fun x hx => hall' x (List.mem_cons_of_mem r hx))]
            have hmem : u ∈ insertKey ks u := (mem_insertKey ks u u).mpr (Or.inr rfl)
            exact if_pos hmem
    rw [taskKeys, haux rs [] hne hall]
    simp [insertKey]
  have hfilter : rs.filter (fun r => r.task = u) = rs :=
    List.filter_eq_self.mpr (fun r hr => by simp [hall r hr])
  rw [groupByTask, hkeys]
  simp [hfilter]

/-- Heterogeneous variant of `List.infix_flatMap_of_mem`. -/
theorem infix_flatMap_of_mem_hetero {α β : Type} {a : α} {l : List α}
    (h : a ∈ l) (f : α → List β) : (f a).IsInfix (l.flatMap f) := by
  induction l with
  | nil => cases h
  | cons x xs ih =>
      rcases List.mem_cons.mp h with rfl | h'
      · exact ⟨[], xs.flatMap f, by simp [List.flatMap_cons]⟩
      · obtain ⟨s, t, hst⟩ := ih h'
        exact ⟨f x ++ s, t, by rw [List.flatMap_cons, ← hst]; simp⟩

/-- The block of responses a group contributes is a contiguous part of the
`_process_batch` output. -/
theorem processGroup_infix_processBatch (handlers : Handlers)
    (batch : List InferRequest) (g : String × List InferRequest)
    (hg : g ∈ groupByTask batch) :
    (processGroup handlers g.1 g.2).IsInfix (processBatch handlers batch) :=
  infix_flatMap_of_mem_hetero hg (fun x => processGroup handlers x.1 x.2)

/-- Processing the requests of one task alone yields exactly that group's
block. -/
theorem processBatch_single_task (handlers : Handlers)
    (rs : List InferRequest) (u : String) (hne : rs ≠ [])
    (hall : ∀ r ∈ rs, r.task = u) :
    processBatch handlers rs = processGroup handlers u rs := by
  rw [processBatch, groupByTask_single rs u hne hall]
  simp

/-! ### Helper lemmas: the batching loop -/

theorem batchifyAux_flatten (bs : Nat) :
    ∀ (s acc : List InferRequest), (batchifyAux bs acc s).flatten = acc ++ s := by
  intro s
  induction s with
  | nil =>
      intro acc
      by_cases h : acc.isEmpty
      · have : acc = [] := List.isEmpty_iff.mp h
        simp [batchifyAux, h, this]
      · simp [batchifyAux, h]
  | cons r rest ih =>
      intro acc
      simp only [batchifyAux]
      by_cases h : bs ≤ (acc ++ [r]).length
      · rw [if_pos h]
        simp [List.flatten_cons, ih]
      · rw [if_neg h, ih]
        simp

theorem batchifyAux_ne_nil (bs : Nat) :
    ∀ (s acc : List InferRequest), ∀ b ∈ batchifyAux bs acc s, b ≠ [] := by
  intro s
  induction s with
  | nil =>
      intro acc b hb
      by_cases h : acc.isEmpty
      · simp [batchifyAux, h] at hb
      · simp only [batchifyAux] at hb
        rw [if_neg (by simpa using h)] at hb
        rw [List.mem_singleton] at hb
        subst hb
        intro hc
        rw [hc] at h
        exact h rfl
  | cons r rest ih =>
      intro acc b hb
      simp only [batchifyAux] at hb
      by_cases h : bs ≤ (acc ++ [r]).length
      · rw [if_pos h] at hb
        rcases List.mem_cons.mp hb with rfl | hb'
        · simp
        · exact ih [] b hb'
      · rw [if_neg h] at hb
        exact ih (acc ++ [r]) b hb

theorem batchifyAux_len_le (bs : Nat) :
    ∀ (s acc : List InferRequest), acc.length < bs →
      ∀ b ∈ batchifyAux bs acc s, b.length ≤ bs := by
  intro s
  induction s with
  | nil =>
      intro acc hacc b hb
      by_cases h : acc.isEmpty
      · simp [batchifyAux, h] at hb
      · simp only [batchifyAux] at hb
        rw [if_neg (by simpa using h)] at hb
        rw [List.mem_singleton] at hb
        subst hb
        omega
  | cons r rest ih =>
      intro acc hacc b hb
      simp only [batchifyAux] at hb
      by_cases h : bs ≤ (acc ++ [r]).length
      · rw [if_pos h] at hb
        rcases List.mem_cons.mp hb with rfl | hb'
        · simp only [List.length_append, List.length_singleton]
          omega
        · exact ih [] (by simp only [List.length_nil]; omega) b hb'
      · rw [if_neg h] at hb
        exact ih (acc ++ [r]) (by simp at h ⊢; omega) b hb

/-- Every dispatched batch except the last one is exactly full. -/
theorem batchifyAux_len_eq (bs : Nat) :
    ∀ (s acc : List InferRequest), acc.length < bs →
      ∀ i (b : List InferRequest), i + 1 < (batchifyAux bs acc s).length →
        (batchifyAux bs acc s)[i]? = some b → b.length = bs := by
  intro s
  induction s with
  | nil =>
      intro acc hacc i b h _
      by_cases he : acc.isEmpty
      · simp [batchifyAux, he] at h
      · simp only [batchifyAux] at h
        rw [if_neg (by simpa using he)] at h
        rw [List.length_singleton] at h
        omega
  | cons r rest ih =>
      intro acc hacc i b h hget
      simp only [batchifyAux] at h hget
      by_cases hf : bs ≤ (acc ++ [r]).length
      · rw [if_pos hf] at h hget
        cases i with
        | zero =>
            rw [List.getElem?_cons_zero] at hget
            cases hget
            simp only [List.length_append, List.length_singleton] at hf ⊢
            omega
        | succ j =>
            rw [List.getElem?_cons_succ] at hget
            exact ih [] (by simp only [List.length_nil]; omega) j b
              (by simp only [List.length_cons] at h; omega) hget
      · rw [if_neg hf] at h hget
        exact ih (acc ++ [r]) (by simp at hf ⊢; omega) i b h hget

/-! ### Helper lemmas: chunk reassembly runs -/

/-- Fragment `i` of a request split into `n` sequenced chunks. -/
def frag (cid : String) (i n : Nat) (p : List Nat) : InferRequest :=
  { correlation_id := cid, task := "", payload := p, payload_mime := "",
    meta := [], seq := i, total := n, offset := 0 }

/-- Fragments carrying payloads `ps` with consecutive `seq` starting at `k`,
all declaring `total = n`. -/
def frags (cid : String) (k n : Nat) : List (List Nat) → List InferRequest
  | [] => []
  | p :: ps => frag cid k n p :: frags cid (k + 1) n ps

/-- Feeding a request sequence through `CLIPService._assemble`, threading the
buffer map, collecting each call's `(payload, ready)` result. -/
def assembleRun : List InferRequest → Buffers → List (List Nat × Bool) × Buffers
  | [], bufs => ([], bufs)
  | r :: rs, bufs =>
      let a := assembleCLIP r.correlation_id r bufs
      let rest := assembleRun rs a.2
      (a.1 :: rest.1, rest.2)

theorem assembleRun_cons (r : InferRequest) (rs : List InferRequest)
    (bufs : Buffers) :
    assembleRun (r :: rs) bufs =
      ((assembleCLIP r.correlation_id r bufs).1 ::
        (assembleRun rs (assembleCLIP r.correlation_id r bufs).2).1,
       (assembleRun rs (assembleCLIP r.correlation_id r bufs).2).2) := rfl

theorem frags_cons (cid : String) (k n : Nat) (p : List Nat)
    (ps : List (List Nat)) :
    frags cid k n (p :: ps) = frag cid k n p :: frags cid (k + 1) n ps := rfl

theorem assembleRun_frags (cid : String) (n : Nat) (hn : 2 ≤ n) :
    ∀ (ps : List (List Nat)) (k : Nat) (acc : List Nat) (bufs : Buffers),
      ps ≠ [] → k + ps.length = n →
      (bufLookup cid bufs).getD [] = acc →
      (assembleRun (frags cid k n ps) bufs).1 =
        List.replicate (ps.length - 1) (([] : List Nat), false) ++
          [(acc ++ ps.flatten, true)] ∧
      bufLookup cid (assembleRun (frags cid k n ps) bufs).2 = none := by
  intro ps
  induction ps with
  | nil => intro k acc bufs hne; exact absurd rfl hne
  | cons p ps' ih =>
      intro k acc bufs _ hlen hbuf
      by_cases hps : ps' = []
      · -- final fragment: seq + 1 = total, buffer flushed and erased
        subst hps
        have hk : k + 1 = n := by simpa using hlen
        have hstep : assembleCLIP (frag cid k n p).correlation_id
            (frag cid k n p) bufs =
            ((acc ++ p, true), bufErase cid (bufUpdate cid (acc ++ p) bufs)) := by
          show assembleCLIP cid (frag cid k n p) bufs = _
          rw [assembleCLIP]
          rw [if_neg (show ¬(frag cid k n p).total ≤ 1 by
            simp only [frag]; omega)]
          rw [if_pos (show (frag cid k n p).total ≠ 0 ∧
              (frag cid k n p).seq + 1 = (frag cid k n p).total by
            simp only [frag]; omega)]
          rw [show (bufLookup cid bufs).getD [] = acc from hbuf]
          rfl
        rw [frags_cons, assembleRun_cons, hstep]
        refine ⟨?_, ?_⟩
        · simp [frags, assembleRun]
        · simp only [frags, assembleRun]
          exact bufLookup_erase_self cid _
      · -- intermediate fragment: buffered, not ready
        have hlen' : 0 < ps'.length := List.length_pos.mpr hps
        have hk : k + 1 < n := by simp at hlen; omega
        have hstep : assembleCLIP (frag cid k n p).correlation_id
            (frag cid k n p) bufs =
            (([], false), bufUpdate cid (acc ++ p) bufs) := by
          show assembleCLIP cid (frag cid k n p) bufs = _
          rw [assembleCLIP]
          rw [if_neg (show ¬(frag cid k n p).total ≤ 1 by
            simp only [frag]; omega)]
          rw [if_neg (show ¬((frag cid k n p).total ≠ 0 ∧
              (frag cid k n p).seq + 1 = (frag cid k n p).total) by
            simp only [frag]; omega)]
          rw [show (bufLookup cid bufs).getD [] = acc from hbuf]
          rfl
        have hrec := ih (k + 1) (acc ++ p) (bufUpdate cid (acc ++ p) bufs)
          hps (by simp at hlen ⊢; omega)
          (by rw [bufLookup_update_self]; rfl)
        rw [frags_cons, assembleRun_cons, hstep]
        refine ⟨?_, ?_⟩
        · simp only
          rw [hrec.1]
          have hrepl : (p :: ps').length - 1 = (ps'.length - 1) + 1 := by
            simp; omega
          rw [hrepl, List.replicate_succ]
          simp [List.flatten_cons]
        · simp only
          exact hrec.2

/-! ### Helper lemmas: the CLIP streaming loop -/

/-- A request can come out of `_assemble` ready only if it is non-chunked or
is the final fragment (`seq + 1 == total`). -/
theorem assembleCLIP_ready (cid : String) (req : InferRequest) (bufs : Buffers)
    (h : (assembleCLIP cid req bufs).1.2 = true) :
    req.total ≤ 1 ∨ req.seq + 1 = req.total := by
  rw [assembleCLIP] at h
  by_cases h1 : req.total ≤ 1
  · exact Or.inl h1
  · rw [if_neg h1] at h
    by_cases h2 : req.total ≠ 0 ∧ req.seq + 1 = req.total
    · exact Or.inr h2.2
    · rw [if_neg h2] at h
      simp at h

theorem metaLookup_insert_self (k v : String) (m : List (String × String)) :
    metaLookup k (metaInsert k v m) = some v := by
  induction m with
  | nil => simp [metaInsert, metaLookup]
  | cons hd tl ih =>
      obtain ⟨k', v'⟩ := hd
      by_cases h : k' = k <;> simp [metaInsert, metaLookup, h, ih]

/-- Every success response the CLIP loop emits got its `meta` through
`meta["lat_ms"] = str(_now_ms() - t0)`. -/
theorem clipLoop_success_has_lat (H : ClipHandlers) (now : Nat → Nat) :
    ∀ (s : List InferRequest) (bufs : Buffers) (tick : Nat)
      (resp : InferResponse), resp ∈ clipLoop H now bufs tick s →
        resp.error = none → ∃ v, metaLookup "lat_ms" resp.meta = some v := by
  intro s
  induction s with
  | nil => intro bufs tick resp h; simp [clipLoop] at h
  | cons req rest ih =>
      intro bufs tick resp h herr
      simp only [clipLoop] at h
      -- first split: the correlation-id fallback; second: readiness;
      -- third: the task routing
      split at h
      all_goals (
        split at h
        · exact ih _ _ resp h herr
        · split at h
          · rcases List.mem_cons.mp h with rfl | h'
            · simp [errorResponse] at herr
            · exact ih _ _ resp h' herr
          · rcases List.mem_cons.mp h with rfl | h'
            · simp [errorResponse] at herr
            · exact ih _ _ resp h' herr
          · rcases List.mem_cons.mp h with rfl | h'
            · exact ⟨_, metaLookup_insert_self "lat_ms" _ _⟩
            · exact ih _ _ resp h' herr)

/-- The fields of a fragment that the reassembler reads, plus its
correlation id. -/
def chunkEq (r1 r2 : InferRequest) : Prop :=
  r1.correlation_id = r2.correlation_id ∧ r1.payload = r2.payload ∧
    r1.seq = r2.seq ∧ r1.total = r2.total

/-- When a fragment can complete a request (non-chunked or final), its
routing fields agree. -/
def finalAgrees (r1 r2 : InferRequest) : Prop :=
  (r1.total ≤ 1 ∨ r1.seq + 1 = r1.total) → r1.task = r2.task ∧ r1.meta = r2.meta

theorem assembleCLIP_chunkEq (a b : InferRequest) (h : chunkEq a b) :
    ∀ (c : String) (bufs : Buffers), assembleCLIP c a bufs = assembleCLIP c b bufs := by
  obtain ⟨_, hpay, hseq, htot⟩ := h
  intro c bufs
  rw [assembleCLIP, assembleCLIP, hpay, hseq, htot]

/-- Core congruence for claim C10: two streams agreeing on chunk coordinates,
payloads and correlation ids, and on `task`/`meta` of the completing
fragments, produce identical output. -/
theorem clipLoop_chunk_congr (H : ClipHandlers) (now : Nat → Nat) :
    ∀ (s1 s2 : List InferRequest),
      List.Forall₂ (fun a b => chunkEq a b ∧ finalAgrees a b) s1 s2 →
      ∀ (bufs : Buffers) (tick : Nat),
        clipLoop H now bufs tick s1 = clipLoop H now bufs tick s2 := by
  intro s1 s2 h
  induction h with
  | nil => intro bufs tick; rfl
  | @cons a b l1 l2 hab htl ih =>
      intro bufs tick
      obtain ⟨hch, hfin⟩ := hab
      obtain ⟨hcid, hpay, hseq, htot⟩ := hch
      simp only [clipLoop]
      rw [hcid]
      rw [assembleCLIP_chunkEq a b ⟨hcid, hpay, hseq, htot⟩]
      by_cases hready : (assembleCLIP
          (if b.correlation_id = "" then ("cid-" ++ toString (now tick), tick + 1)
           else (b.correlation_id, tick)).1 b bufs).1.2 = false
      · rw [if_pos hready, if_pos hready]
        exact ih _ _
      · rw [if_neg hready, if_neg hready]
        have hreadyT : (assembleCLIP
            (if b.correlation_id = "" then ("cid-" ++ toString (now tick), tick + 1)
             else (b.correlation_id, tick)).1 b bufs).1.2 = true := by
          revert hready
          cases (assembleCLIP
            (if b.correlation_id = "" then ("cid-" ++ toString (now tick), tick + 1)
             else (b.correlation_id, tick)).1 b bufs).1.2 <;> simp
        have hcond := assembleCLIP_ready _ _ _ hreadyT
        have hfin' : a.task = b.task ∧ a.meta = b.meta := by
          apply hfin
          rw [hseq, htot]
          exact hcond
        rw [hfin'.1, hfin'.2]
        cases hroute : routeTask H b.task
            ((assembleCLIP
              (if b.correlation_id = "" then ("cid-" ++ toString (now tick), tick + 1)
               else (b.correlation_id, tick)).1 b bufs).1.1) b.meta with
        | none => simp only [hroute]; rw [ih]
        | some out =>
            cases out with
            | error e => simp only [hroute]; rw [ih]
            | ok o => simp only [hroute]; rw [ih]

/-! ### Helper lemmas: group blocks inside a batch -/

theorem group_mem_groupByTask (batch : List InferRequest) (t : String)
    (r : InferRequest) (hr : r ∈ batch) (hrt : r.task = t) :
    (t, batch.filter fun x => x.task = t) ∈ groupByTask batch := by
  rw [groupByTask]
  exact List.mem_map.mpr ⟨t, (mem_taskKeys batch t).mpr ⟨r, hr, hrt⟩, rfl⟩

theorem processGroup_mem_processBatch (handlers : Handlers)
    (batch : List InferRequest) (t : String) (r : InferRequest)
    (hr : r ∈ batch) (hrt : r.task = t) (x : InferResponse)
    (hx : x ∈ processGroup handlers t (batch.filter fun y => y.task = t)) :
    x ∈ processBatch handlers batch :=
  (processGroup_infix_processBatch handlers batch
    (t, batch.filter fun y => y.task = t)
    (group_mem_groupByTask batch t r hr hrt)).subset hx

/-- Any task group present in a batch contributes, contiguously, exactly the
responses it would receive if it were processed as a whole batch by itself. -/
theorem sibling_group_infix (handlers : Handlers) (batch : List InferRequest)
    (u : String) (r : InferRequest) (hr : r ∈ batch) (hu : r.task = u) :
    (processBatch handlers (batch.filter fun x => x.task = u)).IsInfix
      (processBatch handlers batch) := by
  have hne : batch.filter (fun x => x.task = u) ≠ [] := by
    intro hc
    have : r ∈ batch.filter (fun x => x.task = u) :=
      List.mem_filter.mpr ⟨hr, by simp [hu]⟩
    rw [hc] at this
    exact List.not_mem_nil r this
  have hall : ∀ x ∈ batch.filter (fun y => y.task = u), x.task = u := by
    intro x hx
    have := (List.mem_filter.mp hx).2
    simpa using this
  rw [processBatch_single_task handlers _ u hne hall]
  exact processGroup_infix_processBatch handlers batch
    (u, batch.filter fun x => x.task = u)
    (group_mem_groupByTask batch u r hr hu)

/-! ### Concrete fixtures used to witness the claims -/

/-- A registry mapping only `clip_embed`, whose backend succeeds on payload
`[1]` and raises on anything else: the handler generator yields one response
and then raises. -/
def cexEnc : List Nat → Except String (List Int) :=
  fun p => if p = [1] then .ok [5] else .error "boom"

def cexHandlers : Handlers :=
  fun t => if t = "clip_embed" then some (handleClipEmbed cexEnc "m") else none

def reqA : InferRequest :=
  { correlation_id := "a", task := "clip_embed", payload := [1],
    payload_mime := "text/plain", meta := [], seq := 0, total := 0, offset := 0 }

def reqB : InferRequest :=
  { correlation_id := "b", task := "clip_embed", payload := [2],
    payload_mime := "text/plain", meta := [], seq := 0, total := 0, offset := 0 }

/-- A registry mapping only `clip_embed`, with a backend that always
succeeds. -/
def okHandlers : Handlers :=
  fun t => if t = "clip_embed" then some (handleClipEmbed (fun _ => .ok [5]) "m")
           else none

theorem handleClipEmbed_total (enc : List Nat → Except String (List Int))
    (mid : String) (henc : ∀ p, ∃ v, enc p = .ok v) :
    ∀ rs : List InferRequest, (handleClipEmbed enc mid rs).exn = none ∧
      (handleClipEmbed enc mid rs).yielded.map (fun x => x.correlation_id) =
        rs.map (fun r => r.correlation_id) := by
  intro rs
  induction rs with
  | nil => simp [handleClipEmbed]
  | cons r rs ih =>
      obtain ⟨v, hv⟩ := henc r.payload
      simp [handleClipEmbed, hv, ih.1, ih.2, buildEmbedResponse]

theorem okHandlers_perRequest : PerRequestHandlers okHandlers := by
  intro t h hh rs
  rw [okHandlers] at hh
  by_cases ht : t = "clip_embed"
  · rw [if_pos ht] at hh
    cases hh
    have := handleClipEmbed_total (fun _ => .ok [5]) "m" (fun p => ⟨[5], rfl⟩) rs
    exact ⟨fun _ => this.2, fun hc => absurd this.1 hc⟩
  · rw [if_neg ht] at hh
    cases hh

/-- Trivial CLIP handler capabilities for concrete evaluations. -/
def constClipHandlers : ClipHandlers :=
  { embed := fun _ _ => .ok ("r", "m", []),
    classify := fun _ _ => .ok ("r", "m", []),
    classifyScene := fun _ _ => .ok ("r", "m", []) }

def reqW : InferRequest :=
  { correlation_id := "w", task := "clip_embed", payload := [1],
    payload_mime := "text/plain", meta := [], seq := 0, total := 0, offset := 0 }

/-! ## The claims -/

/-- C1 (counterexample): the claim is false when a task-group handler raises
after yielding some responses.  With a `clip_embed` backend that succeeds on
the first request and raises on the second, `_process_batch` on a two-request
batch with distinct correlation ids "a", "b" emits the correlation ids
["a", "a", "b"]: the already-answered request "a" also receives the
group-wide INTERNAL error, so its id occurs twice, not exactly once. -/
theorem claim_C1_counterexample :
    (([reqA, reqB].map fun r => r.correlation_id).Nodup) ∧
    ((processBatch cexHandlers [reqA, reqB]).map fun x => x.correlation_id) =
      ["a", "a", "b"] ∧
    ¬ ((processBatch cexHandlers [reqA, reqB]).map
        fun x => x.correlation_id).count "a" = 1 := by
  decide

/-- C1 (amended): for every batch with distinct correlation ids processed by
one `_process_batch` call, the multiset of emitted correlation ids equals the
submitted ids with each occurring exactly once, provided every registered
handler behaves per-request on its group: it either finishes without raising,
yielding exactly one response per request with that request's correlation id,
or raises before yielding any response.  (When a handler raises after
yielding k responses, those k ids occur twice — see the counterexample.)
No exception propagates out of dispatch: `processBatch` is total and turns
handler failures into error responses. -/
theorem claim_C1_amended (handlers : Handlers) (batch : List InferRequest)
    (hw : PerRequestHandlers handlers)
    (hnd : (batch.map fun r => r.correlation_id).Nodup) :
    ((processBatch handlers batch).map fun x => x.correlation_id).Perm
      (batch.map fun r => r.correlation_id) ∧
    ∀ c ∈ batch.map fun r => r.correlation_id,
      ((processBatch handlers batch).map fun x => x.correlation_id).count c = 1 := by
  have hperm := processBatch_cids_perm handlers batch hw
  refine ⟨hperm, fun c hc => ?_⟩
  rw [hperm.count_eq]
  exact List.count_eq_one_of_mem hnd hc

/-- Witness for C1 (amended): a concrete two-request `clip_embed` batch with
an always-succeeding backend. -/
theorem claim_C1_amended_witness :
    PerRequestHandlers okHandlers ∧
    (([reqA, reqB].map fun r => r.correlation_id).Nodup) ∧
    (((processBatch okHandlers [reqA, reqB]).map
        fun x => x.correlation_id).Perm
      ([reqA, reqB].map fun r => r.correlation_id) ∧
     ∀ c ∈ [reqA, reqB].map fun r => r.correlation_id,
      ((processBatch okHandlers [reqA, reqB]).map
        fun x => x.correlation_id).count c = 1) :=
  ⟨okHandlers_perRequest, by decide,
    claim_C1_amended okHandlers [reqA, reqB] okHandlers_perRequest (by decide)⟩

/-- C2: fragments with `seq = 0 .. total-1` (total ≥ 2) arriving in order on
a fresh correlation id: `_assemble` answers `([], false)` for every fragment
but the last, on the last returns the concatenation of all payloads in seq
order with `ready = true`, deletes the buffer entry, and a subsequent
complete (`total ≤ 1`) request with the same correlation id passes through
untouched — fresh, not appended. -/
theorem claim_C2 (cid : String) (payloads : List (List Nat)) (bufs : Buffers)
    (hn : 2 ≤ payloads.length) (hbuf : bufLookup cid bufs = none) :
    (assembleRun (frags cid 0 payloads.length payloads) bufs).1 =
      List.replicate (payloads.length - 1) (([] : List Nat), false) ++
        [(payloads.flatten, true)] ∧
    bufLookup cid (assembleRun (frags cid 0 payloads.length payloads) bufs).2 =
      none ∧
    ∀ req : InferRequest, req.total ≤ 1 →
      assembleCLIP cid req
          (assembleRun (frags cid 0 payloads.length payloads) bufs).2 =
        ((req.payload, true),
          (assembleRun (frags cid 0 payloads.length payloads) bufs).2) := by
  have hne : payloads ≠ [] := by
    intro hc
    rw [hc] at hn
    simp at hn
  have h := assembleRun_frags cid payloads.length hn payloads 0 [] bufs hne
    (Nat.zero_add _) (by rw [hbuf]; rfl)
  refine ⟨?_, h.2, ?_⟩
  · rw [h.1]
    simp
  · intro req hreq
    rw [assembleCLIP, if_pos hreq]

/-- Witness for C2: two fragments `[1]` and `[2,3]` on id "c". -/
theorem claim_C2_witness :
    (2 ≤ ([[1], [2, 3]] : List (List Nat)).length) ∧
    bufLookup "c" emptyBuffers = none ∧
    ((assembleRun (frags "c" 0 ([[1], [2, 3]] : List (List Nat)).length
        [[1], [2, 3]]) emptyBuffers).1 =
      List.replicate (([[1], [2, 3]] : List (List Nat)).length - 1)
        (([] : List Nat), false) ++
        [(([[1], [2, 3]] : List (List Nat)).flatten, true)] ∧
     bufLookup "c" (assembleRun (frags "c" 0
        ([[1], [2, 3]] : List (List Nat)).length [[1], [2, 3]])
        emptyBuffers).2 = none ∧
     ∀ req : InferRequest, req.total ≤ 1 →
      assembleCLIP "c" req
          (assembleRun (frags "c" 0 ([[1], [2, 3]] : List (List Nat)).length
            [[1], [2, 3]]) emptyBuffers).2 =
        ((req.payload, true),
          (assembleRun (frags "c" 0 ([[1], [2, 3]] : List (List Nat)).length
            [[1], [2, 3]]) emptyBuffers).2)) :=
  ⟨by decide, rfl, claim_C2 "c" [[1], [2, 3]] emptyBuffers (by decide) rfl⟩

/-- C3 (counterexample): `total ≤ 1` is NOT sufficient for the passthrough in
`BioClipService._assemble`: a request with `total = 0` but `seq = 1` fails
the all-zero guard, gets buffered, and returns `([], false)` instead of
`(payload, true)` — and it creates a buffer entry. -/
theorem claim_C3_counterexample :
    ({ correlation_id := "c", task := "classify", payload := [7],
       payload_mime := "image/jpeg", meta := [], seq := 1, total := 0,
       offset := 0 : InferRequest }.total ≤ 1) ∧
    (assembleBio "c"
      { correlation_id := "c", task := "classify", payload := [7],
        payload_mime := "image/jpeg", meta := [], seq := 1, total := 0,
        offset := 0 } emptyBuffers).1 = (([] : List Nat), false) ∧
    bufLookup "c" (assembleBio "c"
      { correlation_id := "c", task := "classify", payload := [7],
        payload_mime := "image/jpeg", meta := [], seq := 1, total := 0,
        offset := 0 } emptyBuffers).2 = some [7] := by
  refine ⟨by decide, rfl, ?_⟩
  rfl

/-- C3 (amended): `CLIPService._assemble` passes any request with
`total ≤ 1` through as `(payload, true)` with the buffer map untouched;
`BioClipService._assemble` does so exactly when `total`, `seq` and `offset`
are all zero. -/
theorem claim_C3_amended :
    (∀ (cid : String) (req : InferRequest) (bufs : Buffers), req.total ≤ 1 →
      assembleCLIP cid req bufs = ((req.payload, true), bufs)) ∧
    (∀ (cid : String) (req : InferRequest) (bufs : Buffers),
      req.total = 0 → req.seq = 0 → req.offset = 0 →
      assembleBio cid req bufs = ((req.payload, true), bufs)) := by
  constructor
  · intro cid req bufs h
    rw [assembleCLIP, if_pos h]
  · intro cid req bufs h1 h2 h3
    rw [assembleBio, if_pos ⟨h1, h2, h3⟩]

/-- Witness for C3 (amended): a non-chunked request through both
reassemblers. -/
theorem claim_C3_amended_witness :
    assembleCLIP "c"
      { correlation_id := "c", task := "embed", payload := [9],
        payload_mime := "text/plain", meta := [], seq := 0, total := 1,
        offset := 0 } emptyBuffers = (([9], true), emptyBuffers) ∧
    assembleBio "c"
      { correlation_id := "c", task := "embed", payload := [9],
        payload_mime := "text/plain", meta := [], seq := 0, total := 0,
        offset := 0 } emptyBuffers = (([9], true), emptyBuffers) :=
  ⟨claim_C3_amended.1 "c" _ emptyBuffers (by decide),
   claim_C3_amended.2 "c" _ emptyBuffers rfl rfl rfl⟩

/-- C4: in any batch containing a group whose task has no registered handler,
every request of that group receives an INVALID_ARGUMENT error response with
the descriptive message "Unknown task: <name>", and every other task group in
the batch is processed normally: its requests receive, contiguously within
the batch output, exactly the responses they would receive processed alone.
No exception propagates out of dispatch: `processBatch` is a total function
whose unknown-task branch builds error responses instead of raising. -/
theorem claim_C4 (handlers : Handlers) (batch : List InferRequest) (t : String)
    (hnone : handlers t = none) :
    (∀ r ∈ batch, r.task = t →
      errorResponse r.correlation_id .INVALID_ARGUMENT ("Unknown task: " ++ t) ∈
        processBatch handlers batch) ∧
    (∀ u, u ≠ t → ∀ r ∈ batch, r.task = u →
      (processBatch handlers (batch.filter fun x => x.task = u)).IsInfix
        (processBatch handlers batch)) := by
  constructor
  · intro r hr hrt
    apply processGroup_mem_processBatch handlers batch t r hr hrt
    have hpg : processGroup handlers t (batch.filter fun y => y.task = t) =
        (batch.filter fun y => y.task = t).map fun x =>
          errorResponse x.correlation_id .INVALID_ARGUMENT
            ("Unknown task: " ++ t) := by
      simp only [processGroup, hnone]
    rw [hpg]
    exact List.mem_map.mpr ⟨r, List.mem_filter.mpr ⟨hr, by simp [hrt]⟩, rfl⟩
  · intro u _ r hr hru
    exact sibling_group_infix handlers batch u r hr hru

/-- A request bearing an unregistered task name. -/
def reqU : InferRequest :=
  { correlation_id := "u", task := "foo", payload := [],
    payload_mime := "", meta := [], seq := 0, total := 0, offset := 0 }

/-- Witness for C4: a batch mixing an unregistered task "foo" with a
registered `clip_embed` group. -/
theorem claim_C4_witness :
    okHandlers "foo" = none ∧
    ((∀ r ∈ [reqU, reqA], r.task = "foo" →
      errorResponse r.correlation_id .INVALID_ARGUMENT
          ("Unknown task: " ++ "foo") ∈
        processBatch okHandlers [reqU, reqA]) ∧
     (∀ u, u ≠ "foo" → ∀ r ∈ [reqU, reqA], r.task = u →
      (processBatch okHandlers
        ([reqU, reqA].filter fun x => x.task = u)).IsInfix
        (processBatch okHandlers [reqU, reqA]))) :=
  ⟨rfl, claim_C4 okHandlers [reqU, reqA] "foo" rfl⟩

/-- C5: if the handler of one task group raises (modelled by the generator
finishing with `exn = some e`), every request of that group receives an
INTERNAL error response whose message is the failure description `e` and
whose correlation id is that request's, and sibling task groups are processed
unaffected (contiguously, exactly as they would be alone). -/
theorem claim_C5 (handlers : Handlers) (batch : List InferRequest) (t : String)
    (h : List InferRequest → GenResult) (hsome : handlers t = some h)
    (e : String)
    (hexn : (h (batch.filter fun x => x.task = t)).exn = some e) :
    (∀ r ∈ batch, r.task = t →
      errorResponse r.correlation_id .INTERNAL e ∈ processBatch handlers batch) ∧
    (∀ u, u ≠ t → ∀ r ∈ batch, r.task = u →
      (processBatch handlers (batch.filter fun x => x.task = u)).IsInfix
        (processBatch handlers batch)) := by
  constructor
  · intro r hr hrt
    apply processGroup_mem_processBatch handlers batch t r hr hrt
    have hpg : processGroup handlers t (batch.filter fun y => y.task = t) =
        (h (batch.filter fun y => y.task = t)).yielded ++
          (batch.filter fun y => y.task = t).map (fun x =>
            errorResponse x.correlation_id .INTERNAL e) := by
      simp only [processGroup, hsome, hexn]
    rw [hpg]
    apply List.mem_append_right
    exact List.mem_map.mpr ⟨r, List.mem_filter.mpr ⟨hr, by simp [hrt]⟩, rfl⟩
  · intro u _ r hr hru
    exact sibling_group_infix handlers batch u r hr hru

/-- Witness for C5: the failing `clip_embed` backend on the batch `[reqB]`
(payload `[2]` makes the backend raise "boom" before yielding). -/
theorem claim_C5_witness :
    cexHandlers "clip_embed" = some (handleClipEmbed cexEnc "m") ∧
    (handleClipEmbed cexEnc "m"
      ([reqB].filter fun x => x.task = "clip_embed")).exn = some "boom" ∧
    ((∀ r ∈ [reqB], r.task = "clip_embed" →
      errorResponse r.correlation_id .INTERNAL "boom" ∈
        processBatch cexHandlers [reqB]) ∧
     (∀ u, u ≠ "clip_embed" → ∀ r ∈ [reqB], r.task = u →
      (processBatch cexHandlers
        ([reqB].filter fun x => x.task = u)).IsInfix
        (processBatch cexHandlers [reqB]))) :=
  ⟨rfl, by decide,
    claim_C5 cexHandlers [reqB] "clip_embed" (handleClipEmbed cexEnc "m") rfl
      "boom" (by decide)⟩

/-- C6: the stream loop of `UnifiedMLService.Infer` dispatches exactly when
the accumulation reaches `BATCH_SIZE = 8` or at end of stream with a nonempty
remainder: no dispatched batch is empty, their concatenation is exactly the
input stream, every batch has at most 8 requests, every batch except the last
has exactly 8; with exactly 3 requests before stream end, all 3 are
dispatched in one batch and handed to `_process_batch` for answering. -/
theorem claim_C6 (stream : List InferRequest) (handlers : Handlers) :
    (∀ b ∈ batchify BATCH_SIZE stream, b ≠ []) ∧
    (batchify BATCH_SIZE stream).flatten = stream ∧
    (∀ b ∈ batchify BATCH_SIZE stream, b.length ≤ BATCH_SIZE) ∧
    (∀ i b, i + 1 < (batchify BATCH_SIZE stream).length →
      (batchify BATCH_SIZE stream)[i]? = some b → b.length = BATCH_SIZE) ∧
    (∀ a b c : InferRequest, batchify BATCH_SIZE [a, b, c] = [[a, b, c]]) ∧
    (∀ a b c : InferRequest, unifiedInfer true true handlers [a, b, c] =
      .ok (processBatch handlers [a, b, c])) := by
  refine ⟨?_, ?_, ?_, ?_, ?_, ?_⟩
  · intro b hb
    exact batchifyAux_ne_nil BATCH_SIZE stream [] b hb
  · have := batchifyAux_flatten BATCH_SIZE stream []
    simpa using this
  · intro b hb
    exact batchifyAux_len_le BATCH_SIZE stream [] (by decide) b hb
  · intro i b hi hget
    exact batchifyAux_len_eq BATCH_SIZE stream [] (by decide) i b hi hget
  · intro a b c
    rfl
  · intro a b c
    have hb : batchify BATCH_SIZE [a, b, c] = [[a, b, c]] := rfl
    rw [unifiedInfer, if_neg (by simp), hb]
    simp

/-- Witness for C6: nine identical requests make two batches, the first full
with exactly 8 and the second holding the single remainder. -/
theorem claim_C6_witness :
    (0 + 1 < (batchify BATCH_SIZE (List.replicate 9 reqW)).length) ∧
    ((batchify BATCH_SIZE (List.replicate 9 reqW))[0]? =
      some (List.replicate 8 reqW)) ∧
    (List.replicate 8 reqW).length = BATCH_SIZE ∧
    (batchify BATCH_SIZE (List.replicate 9 reqW)).flatten =
      List.replicate 9 reqW :=
  ⟨by decide, by decide,
    (claim_C6 (List.replicate 9 reqW) okHandlers).2.2.2.1 0
      (List.replicate 8 reqW) (by decide) (by decide),
    (claim_C6 (List.replicate 9 reqW) okHandlers).2.1⟩

/-- C7: when the backing models are not initialized, the streaming Infer call
aborts immediately with a FAILED_PRECONDITION signal; the abort is the entire
result — no per-request response is emitted for any request of the stream.
Holds for `UnifiedMLService.Infer` (either model manager uninitialized) and
for `CLIPService.Infer`. -/
theorem claim_C7 (handlers : Handlers) (H : ClipHandlers) (now : Nat → Nat)
    (stream : List InferRequest) (clipInit bioInit : Bool)
    (hnot : clipInit = false ∨ bioInit = false) :
    unifiedInfer clipInit bioInit handlers stream =
      .error (.FAILED_PRECONDITION, "Models are not initialized.") ∧
    clipInfer false H now stream =
      .error (.FAILED_PRECONDITION, "Model not initialized") := by
  constructor
  · rw [unifiedInfer, if_pos]
    rcases hnot with h | h <;> simp [h]
  · rfl

/-- Witness for C7: an uninitialized unified service and CLIP service on a
nonempty stream. -/
theorem claim_C7_witness :
    ((false : Bool) = false ∨ (true : Bool) = false) ∧
    (unifiedInfer false true (fun _ => none) [reqW] =
      .error (.FAILED_PRECONDITION, "Models are not initialized.") ∧
     clipInfer false constClipHandlers (fun _ => 0) [reqW] =
      .error (.FAILED_PRECONDITION, "Model not initialized")) :=
  ⟨Or.inl rfl,
    claim_C7 (fun _ => none) constClipHandlers (fun _ => 0) [reqW] false true
      (Or.inl rfl)⟩

/-- C8 (counterexample): not every success response carries a latency value.
`UnifiedMLService._build_embed_response` populates `meta` with only
`{"dim": str(len(vec))}` — no latency key — and `_build_label_response` with
only the label count (plus caller-supplied extras). -/
theorem claim_C8_counterexample :
    (buildEmbedResponse "c1" [1, 2] "m").error = none ∧
    (buildEmbedResponse "c1" [1, 2] "m").meta = [("dim", "2")] ∧
    metaLookup "lat_ms" (buildEmbedResponse "c1" [1, 2] "m").meta = none := by
  decide

/-- C8 (amended): success responses emitted by `CLIPService.Infer` carry a
`lat_ms` meta entry (the computed latency in milliseconds) alongside the
handler's task-specific counters; the unified service's response builders
attach only the task-specific counters (`dim`, `labels_count`) and no
latency. -/
theorem claim_C8_amended :
    (∀ (H : ClipHandlers) (now : Nat → Nat) (s : List InferRequest)
      (bufs : Buffers) (tick : Nat) (resp : InferResponse),
      resp ∈ clipLoop H now bufs tick s → resp.error = none →
        ∃ v, metaLookup "lat_ms" resp.meta = some v) ∧
    (∀ (cid : String) (vec : List Int) (mid : String),
      metaLookup "lat_ms" (buildEmbedResponse cid vec mid).meta = none ∧
      metaLookup "dim" (buildEmbedResponse cid vec mid).meta =
        some (toString vec.length)) ∧
    (∀ (cid : String) (scores : List (String × Int)) (mid : String),
      metaLookup "lat_ms" (buildLabelResponse cid scores mid []).meta = none ∧
      metaLookup "labels_count" (buildLabelResponse cid scores mid []).meta =
        some (toString scores.length)) := by
  refine ⟨?_, ?_, ?_⟩
  · intro H now s bufs tick resp hmem herr
    exact clipLoop_success_has_lat H now s bufs tick resp hmem herr
  · intro cid vec mid
    constructor
    · rw [buildEmbedResponse]
      simp only [metaLookup]
      rw [if_neg (by decide)]
    · rw [buildEmbedResponse]
      simp [metaLookup]
  · intro cid scores mid
    constructor
    · rw [buildLabelResponse]
      simp only [List.append_nil, metaLookup]
      rw [if_neg (by decide)]
    · rw [buildLabelResponse]
      simp [metaLookup]

/-- A text-embed request routed by the CLIP loop. -/
def reqE : InferRequest :=
  { correlation_id := "e", task := "embed", payload := [1],
    payload_mime := "text/plain", meta := [], seq := 0, total := 0,
    offset := 0 }

/-- The success response the CLIP loop produces for `reqE` under
`constClipHandlers` and the constant-zero clock. -/
def respW : InferResponse :=
  { correlation_id := "e", is_final := true, result := "r", result_mime := "m",
    meta := [("lat_ms", "0")], error := none }

/-- Witness for C8 (amended): the concrete CLIP-loop success response for
`reqE` has a `lat_ms` entry. -/
theorem claim_C8_amended_witness :
    (respW ∈ clipLoop constClipHandlers (fun _ => 0) emptyBuffers 0 [reqE]) ∧
    respW.error = none ∧
    (∃ v, metaLookup "lat_ms" respW.meta = some v) :=
  ⟨by decide, rfl,
    claim_C8_amended.1 constClipHandlers (fun _ => 0) [reqE] emptyBuffers 0
      respW (by decide) rfl⟩

/-- C9: a `total ≤ 1` request through `CLIPService._assemble` while a partial
buffer exists for the same correlation id neither consumes, appends to, nor
deletes that buffer — the map is returned unchanged — and the returned
payload is exactly the request's own payload, ignoring the buffered
fragments. -/
theorem claim_C9 (cid : String) (req : InferRequest) (bufs : Buffers)
    (B : List Nat) (hbuf : bufLookup cid bufs = some B) (h : req.total ≤ 1) :
    assembleCLIP cid req bufs = ((req.payload, true), bufs) := by
  rw [assembleCLIP, if_pos h]

/-- Witness for C9: a buffer holding `[1, 2]` for "c" survives a complete
request with payload `[9]` untouched. -/
theorem claim_C9_witness :
    bufLookup "c" (bufUpdate "c" [1, 2] emptyBuffers) = some [1, 2] ∧
    reqE.total ≤ 1 ∧
    assembleCLIP "c" reqE (bufUpdate "c" [1, 2] emptyBuffers) =
      ((reqE.payload, true), bufUpdate "c" [1, 2] emptyBuffers) :=
  ⟨by decide, by decide,
    claim_C9 "c" reqE (bufUpdate "c" [1, 2] emptyBuffers) [1, 2] (by decide)
      (by decide)⟩

/-- C10: the task and meta used for routing and response building come
exclusively from the fragment that completes a request (non-chunked, or
`seq + 1 = total`); the task/meta/payload_mime of earlier fragments never
affect which handler runs or what is produced: two streams agreeing on
correlation ids, payloads and chunk coordinates, and on task/meta of the
completing fragments only, yield identical responses.  (`payload_mime` is
not constrained on ANY fragment: `CLIPService.Infer` never reads it.) -/
theorem claim_C10 (H : ClipHandlers) (now : Nat → Nat)
    (s1 s2 : List InferRequest)
    (hrel : List.Forall₂ (fun a b => chunkEq a b ∧ finalAgrees a b) s1 s2)
    (bufs : Buffers) (tick : Nat) :
    clipLoop H now bufs tick s1 = clipLoop H now bufs tick s2 :=
  clipLoop_chunk_congr H now s1 s2 hrel bufs tick

/-- First fragment as claimed sent with misleading routing fields. -/
def fragX : InferRequest :=
  { correlation_id := "c", task := "classify", payload := [1],
    payload_mime := "image/png", meta := [("topk", "3")], seq := 0,
    total := 2, offset := 0 }

/-- The same first fragment with blank routing fields. -/
def fragY : InferRequest :=
  { correlation_id := "c", task := "", payload := [1], payload_mime := "",
    meta := [], seq := 0, total := 2, offset := 0 }

/-- Final fragment, carrying the routing fields that matter. -/
def fragZ : InferRequest :=
  { correlation_id := "c", task := "embed", payload := [2],
    payload_mime := "text/plain", meta := [], seq := 1, total := 2,
    offset := 0 }

/-- The two fragment streams agree on chunk coordinates everywhere and on
routing fields of the completing fragment. -/
theorem fragRel :
    List.Forall₂ (fun a b => chunkEq a b ∧ finalAgrees a b) [fragX, fragZ]
      [fragY, fragZ] :=
  List.Forall₂.cons ⟨⟨rfl, rfl, rfl, rfl⟩, fun hc => absurd hc (by decide)⟩
    (List.Forall₂.cons ⟨⟨rfl, rfl, rfl, rfl⟩, fun _ => ⟨rfl, rfl⟩⟩
      List.Forall₂.nil)

/-- Witness for C10: changing task/meta/payload_mime of the non-final
fragment does not change the emitted responses. -/
theorem claim_C10_witness :
    List.Forall₂ (fun a b => chunkEq a b ∧ finalAgrees a b) [fragX, fragZ]
      [fragY, fragZ] ∧
    clipLoop constClipHandlers (fun _ => 0) emptyBuffers 0 [fragX, fragZ] =
      clipLoop constClipHandlers (fun _ => 0) emptyBuffers 0 [fragY, fragZ] :=
  ⟨fragRel,
   claim_C10 constClipHandlers (fun _ => 0) [fragX, fragZ] [fragY, fragZ]
    fragRel emptyBuffers 0⟩

end Lumilio
